import Mathlib

/-!
Verification of the communication-bus core of the Agentic-AI-Dev-Toolkit
repository (`src/core/communication_bus.py` and `src/core/models.py`).

The Python code is embedded shallowly:

* `Message` keeps the fields the bus logic inspects (`priority`,
  `timestamp`, `ttl`, addressing fields).  Timestamps and the current
  clock are integers (seconds); `datetime.now()` becomes an explicit
  `now` parameter threaded through the functions that call it.
* `MessageQueue` holds the heap `_queue` as a list of
  `(negated priority, counter, message)` entries.  `heapq.heappush`
  inserts into the multiset; `heapq.heappop` removes the entry with the
  least `(key, counter)` pair, which `popMin` implements directly.
* `CommunicationBus` state becomes the record `BusState`; each Python
  method becomes a state-passing function.  Subscriber callbacks and the
  delivery outcomes of `await callback(...)` are modelled by a delivery
  oracle `String → Message → Bool`; message filters, which may raise,
  return a `FilterOutcome`.  Logging and websocket notification have no
  observable effect on the modelled state and are dropped.
-/

/-- Inter-agent message (`models.Message`).  `content`, `metadata` and
`message_type` never influence the bus logic verified here, so only the
fields the bus inspects are kept.  `timestamp` is the creation instant in
seconds; `ttl` is the optional time-to-live in seconds. -/
structure Message where
  id : Nat
  sender : String
  recipient : String
  priority : Int
  timestamp : Int
  ttl : Option Int
deriving DecidableEq, Repr

/-- `Message.is_expired`: the Python body is
`if not self.ttl: return False` followed by
`(now - created).total_seconds() > self.ttl`.  Python's `not self.ttl`
is true both for `None` and for `0`, so a `ttl` of `0` takes the early
`False` branch. -/
def Message.is_expired (m : Message) (now : Int) : Bool :=
  match m.ttl with
  | none => false
  | some t => if t = 0 then false else decide (now - m.timestamp > t)

/-- A heap entry `(priority, counter, message)` as pushed by
`MessageQueue.put` (`priority` is the negated message priority). -/
abbrev Entry := Int × Nat × Message

/-- Comparison `heapq` uses between entries: lexicographic on
`(negated priority, counter)`.  Counters are distinct in any queue built
by `put`, so the message component is never compared. -/
def entryLE (a b : Entry) : Prop :=
  a.1 < b.1 ∨ (a.1 = b.1 ∧ a.2.1 ≤ b.2.1)

/-- Strict version of `entryLE`. -/
def entryLT (a b : Entry) : Prop :=
  a.1 < b.1 ∨ (a.1 = b.1 ∧ a.2.1 < b.2.1)

instance (a b : Entry) : Decidable (entryLE a b) := by
  unfold entryLE; infer_instance

instance (a b : Entry) : Decidable (entryLT a b) := by
  unfold entryLT; infer_instance

theorem entryLE_total (a b : Entry) : entryLE a b ∨ entryLE b a := by
  unfold entryLE; omega

theorem entryLE_trans {a b c : Entry} (h1 : entryLE a b) (h2 : entryLE b c) :
    entryLE a c := by
  unfold entryLE at *; omega

theorem entryLE_of_not {a b : Entry} (h : ¬ entryLE a b) : entryLE b a := by
  unfold entryLE at *; omega

theorem entryLT_asymm {a b : Entry} (h1 : entryLT a b) (h2 : entryLT b a) : False := by
  unfold entryLT at *; omega

instance : IsAntisymm Entry entryLT :=
  ⟨fun _ _ h1 h2 => absurd h1 (fun h => entryLT_asymm h h2)⟩

/-- One `heapq.heappop`: remove the least entry (by `entryLE`) from the
multiset of heap entries; returns the popped entry and the rest. -/
def popMin : List Entry → Option (Entry × List Entry)
  | [] => none
  | e :: rest =>
    match popMin rest with
    | none => some (e, [])
    | some (m, rest') =>
      if entryLE e m then some (e, rest) else some (m, e :: rest')

theorem popMin_nil_iff {l : List Entry} : popMin l = none ↔ l = [] := by
  cases l with
  | nil => simp [popMin]
  | cons e rest =>
    simp only [popMin]
    rcases h : popMin rest with _ | ⟨m, rest'⟩
    · simp
    · by_cases hle : entryLE e m <;> simp [hle]

theorem popMin_perm {l : List Entry} {e : Entry} {rest : List Entry}
    (h : popMin l = some (e, rest)) : l.Perm (e :: rest) := by
  induction l generalizing e rest with
  | nil => simp [popMin] at h
  | cons a l ih =>
    simp only [popMin] at h
    rcases hrec : popMin l with _ | ⟨m, rest'⟩
    · rw [hrec] at h
      simp only [Option.some.injEq, Prod.mk.injEq] at h
      obtain ⟨rfl, rfl⟩ := h
      have : l = [] := popMin_nil_iff.mp hrec
      subst this
      exact List.Perm.refl _
    · rw [hrec] at h
      by_cases hle : entryLE a m
      · simp only [hle, if_true, Option.some.injEq, Prod.mk.injEq] at h
        obtain ⟨rfl, rfl⟩ := h
        exact List.Perm.refl _
      · simp only [hle, if_false, Option.some.injEq, Prod.mk.injEq] at h
        obtain ⟨rfl, rfl⟩ := h
        exact ((ih hrec).cons a).trans (List.Perm.swap m a rest')

theorem popMin_le {l : List Entry} {e : Entry} {rest : List Entry}
    (h : popMin l = some (e, rest)) : ∀ x ∈ rest, entryLE e x := by
  induction l generalizing e rest with
  | nil => simp [popMin] at h
  | cons a l ih =>
    simp only [popMin] at h
    rcases hrec : popMin l with _ | ⟨m, rest'⟩
    · rw [hrec] at h
      simp only [Option.some.injEq, Prod.mk.injEq] at h
      obtain ⟨rfl, rfl⟩ := h
      intro x hx; simp at hx
    · rw [hrec] at h
      by_cases hle : entryLE a m
      · simp only [hle, if_true, Option.some.injEq, Prod.mk.injEq] at h
        obtain ⟨rfl, rfl⟩ := h
        intro x hx
        have hx' : x ∈ m :: rest' := (popMin_perm hrec).mem_iff.mp hx
        rcases List.mem_cons.mp hx' with rfl | hx''
        · exact hle
        · exact entryLE_trans hle (ih hrec x hx'')
      · simp only [hle, if_false, Option.some.injEq, Prod.mk.injEq] at h
        obtain ⟨rfl, rfl⟩ := h
        intro x hx
        rcases List.mem_cons.mp hx with rfl | hx''
        · exact entryLE_of_not hle
        · exact ih hrec x hx''

theorem popMin_length {l : List Entry} {e : Entry} {rest : List Entry}
    (h : popMin l = some (e, rest)) : l.length = rest.length + 1 :=
  (popMin_perm h).length_eq

/-- Repeatedly pop the least entry; `fuel` bounds the recursion and any
`fuel ≥ l.length` drains the whole list. -/
def drainAux : Nat → List Entry → List Entry
  | 0, _ => []
  | fuel + 1, l =>
    match popMin l with
    | none => []
    | some (e, rest) => e :: drainAux fuel rest

/-- The sequence of entries obtained by popping the heap until empty:
the order in which successive `heappop` calls surrender the entries. -/
def drainList (l : List Entry) : List Entry := drainAux l.length l

theorem drainAux_perm : ∀ (fuel : Nat) (l : List Entry), l.length ≤ fuel →
    (drainAux fuel l).Perm l := by
  intro fuel
  induction fuel with
  | zero =>
    intro l hl
    have : l = [] := List.length_eq_zero.mp (Nat.le_zero.mp hl)
    subst this; simp [drainAux]
  | succ n ih =>
    intro l hl
    rcases h : popMin l with _ | ⟨m, rest⟩
    · have : l = [] := popMin_nil_iff.mp h
      subst this; simp [drainAux, popMin]
    · have hlen := popMin_length h
      have hrest : rest.length ≤ n := by omega
      have : drainAux (n + 1) l = m :: drainAux n rest := by
        simp [drainAux, h]
      rw [this]
      exact ((ih rest hrest).cons m).trans (popMin_perm h).symm

theorem drainList_perm (l : List Entry) : (drainList l).Perm l :=
  drainAux_perm l.length l le_rfl

theorem drainAux_pairwise : ∀ (fuel : Nat) (l : List Entry), l.length ≤ fuel →
    (drainAux fuel l).Pairwise entryLE := by
  intro fuel
  induction fuel with
  | zero => intro l _; simp [drainAux]
  | succ n ih =>
    intro l hl
    rcases h : popMin l with _ | ⟨m, rest⟩
    · simp [drainAux, h]
    · have hlen := popMin_length h
      have hrest : rest.length ≤ n := by omega
      have heq : drainAux (n + 1) l = m :: drainAux n rest := by
        simp [drainAux, h]
      rw [heq]
      refine List.Pairwise.cons ?_ (ih rest hrest)
      intro x hx
      exact popMin_le h x ((drainAux_perm n rest hrest).mem_iff.mp hx)

theorem drainList_pairwise (l : List Entry) : (drainList l).Pairwise entryLE :=
  drainAux_pairwise l.length l le_rfl

/-- When the stored counters are pairwise distinct (true of every queue
built by `put`, whose counter increases monotonically), the pop order is
strictly increasing in `(negated priority, counter)`. -/
theorem drainList_pairwise_strict (l : List Entry)
    (h : (l.map (fun e => e.2.1)).Nodup) : (drainList l).Pairwise entryLT := by
  have h1 := drainList_pairwise l
  have hperm := drainList_perm l
  have hnd : ((drainList l).map (fun e => e.2.1)).Nodup :=
    (hperm.map (fun e => e.2.1)).nodup_iff.mpr h
  have h2 : (drainList l).Pairwise (fun a b : Entry => a.2.1 ≠ b.2.1) :=
    List.pairwise_map.mp hnd
  refine (h1.and h2).imp ?_
  intro a b hab
  rcases hab with ⟨hle, hne⟩
  unfold entryLE at hle
  unfold entryLT
  omega

/-- `MessageQueue.__init__`: bounded priority heap with a monotone
counter for FIFO tie-breaking. -/
structure MessageQueue where
  max_size : Nat
  queue : List Entry
  counter : Nat
  size : Nat
deriving Repr

/-- A fresh queue, as built by `MessageQueue.__init__(max_size)`. -/
def mkQueue (max_size : Nat) : MessageQueue :=
  { max_size := max_size, queue := [], counter := 0, size := 0 }

/-- `MessageQueue.put`: reject when at capacity; otherwise push
`(-message.priority, counter, message)` and increment counter and size. -/
def MessageQueue.put (q : MessageQueue) (m : Message) : Bool × MessageQueue :=
  if q.size ≥ q.max_size then (false, q)
  else
    (true, { q with queue := (-m.priority, q.counter, m) :: q.queue,
                    counter := q.counter + 1,
                    size := q.size + 1 })

/-- `MessageQueue.get`: `heapq.heappop` the least entry, return its
message and decrement size; `none` on an empty queue. -/
def MessageQueue.get (q : MessageQueue) : Option Message × MessageQueue :=
  match popMin q.queue with
  | none => (none, q)
  | some (e, rest) => (some e.2.2, { q with queue := rest, size := q.size - 1 })

/-- `MessageQueue.clear_expired`: keep exactly the entries whose message
is not expired at `now`, re-heapify (a multiset no-op), reset the size,
and return how many entries were dropped. -/
def MessageQueue.clear_expired (q : MessageQueue) (now : Int) : Nat × MessageQueue :=
  let newQueue := q.queue.filter (fun e => !(e.2.2.is_expired now))
  let expiredCount := q.queue.countP (fun e => e.2.2.is_expired now)
  (expiredCount, { q with queue := newQueue, size := newQueue.length })

/-- The messages surrendered by successive `get` calls until the queue
is empty (fuel-bounded; `queue.length` fuel always suffices). -/
def drainQueueAux : Nat → MessageQueue → List Message
  | 0, _ => []
  | fuel + 1, q =>
    match q.get with
    | (none, _) => []
    | (some m, q') => m :: drainQueueAux fuel q'

/-- Drain a queue by successive `get` calls. -/
def MessageQueue.drain (q : MessageQueue) : List Message :=
  drainQueueAux q.queue.length q

theorem drainQueueAux_eq (fuel : Nat) : ∀ (q : MessageQueue),
    drainQueueAux fuel q = (drainAux fuel q.queue).map (fun e => e.2.2) := by
  induction fuel with
  | zero => intro q; simp [drainQueueAux, drainAux]
  | succ n ih =>
    intro q
    rcases h : popMin q.queue with _ | ⟨e, rest⟩
    · simp [drainQueueAux, drainAux, MessageQueue.get, h]
    · simp [drainQueueAux, drainAux, MessageQueue.get, h, ih]

theorem MessageQueue.drain_eq (q : MessageQueue) :
    q.drain = (drainList q.queue).map (fun e => e.2.2) :=
  drainQueueAux_eq q.queue.length q

/-- Insert a batch of messages by successive `put` calls. -/
def putAll (q : MessageQueue) (msgs : List Message) : MessageQueue :=
  msgs.foldl (fun acc m => (acc.put m).2) q

theorem putAll_queue : ∀ (msgs : List Message) (q : MessageQueue),
    q.size + msgs.length ≤ q.max_size →
    (putAll q msgs).queue =
      ((msgs.enumFrom q.counter).map
        (fun p => (-(p.2.priority), p.1, p.2))).reverse ++ q.queue := by
  intro msgs
  induction msgs with
  | nil => intro q _; simp [putAll]
  | cons m rest ih =>
    intro q h
    have hlt : ¬ q.size ≥ q.max_size := by
      simp only [List.length_cons] at h; omega
    have hstep : putAll q (m :: rest) =
        putAll { q with queue := (-m.priority, q.counter, m) :: q.queue,
                        counter := q.counter + 1, size := q.size + 1 } rest := by
      simp [putAll, MessageQueue.put, hlt]
    rw [hstep, ih]
    · simp [List.enumFrom_cons, List.append_assoc]
    · simp only [List.length_cons] at h; simp; omega

theorem putAll_counters (msgs : List Message) : ∀ (n : Nat),
    (((msgs.enumFrom n).map (fun p => (-(p.2.priority), p.1, p.2))).map
        (fun e : Entry => e.2.1)) = List.range' n msgs.length := by
  induction msgs with
  | nil => intro n; simp
  | cons m rest ih =>
    intro n
    simp [List.enumFrom_cons, List.range'_succ, ih]

/-- C1: for every sequence of messages inserted into the priority queue
via `put`, successive `get` calls return messages in order of descending
priority and, among equal priorities, in insertion order (FIFO): the
drained entries are exactly the inserted messages keyed by
`(-priority, insertion index)`, and the drain order is pairwise ordered
by descending priority with ties broken by ascending insertion index. -/
theorem priority_queue_drain_ordered (cap : Nat) (msgs : List Message)
    (h : msgs.length ≤ cap) :
    (putAll (mkQueue cap) msgs).drain =
        (drainList (putAll (mkQueue cap) msgs).queue).map (fun e => e.2.2) ∧
    (drainList (putAll (mkQueue cap) msgs).queue).Perm
        ((msgs.enumFrom 0).map (fun p => (-(p.2.priority), p.1, p.2))) ∧
    (drainList (putAll (mkQueue cap) msgs).queue).Pairwise
        (fun e1 e2 : Entry => e1.2.2.priority > e2.2.2.priority ∨
          (e1.2.2.priority = e2.2.2.priority ∧ e1.2.1 < e2.2.1)) := by
  have hq : (putAll (mkQueue cap) msgs).queue =
      ((msgs.enumFrom 0).map (fun p => (-(p.2.priority), p.1, p.2))).reverse := by
    have := putAll_queue msgs (mkQueue cap) (by simp [mkQueue]; omega)
    simpa [mkQueue] using this
  have hctr : ((putAll (mkQueue cap) msgs).queue.map (fun e => e.2.1)).Nodup := by
    rw [hq, List.map_reverse, putAll_counters]
    exact List.nodup_reverse.mpr (List.nodup_range' 0 msgs.length)
  refine ⟨MessageQueue.drain_eq _, ?_, ?_⟩
  · rw [hq]
    exact (drainList_perm _).trans (List.reverse_perm _)
  · have hstrict := drainList_pairwise_strict _ hctr
    refine hstrict.imp_of_mem ?_
    intro a b ha hb hab
    have hform : ∀ e : Entry,
        e ∈ drainList (putAll (mkQueue cap) msgs).queue → e.1 = -(e.2.2.priority) := by
      intro e he
      have he2 : e ∈ (putAll (mkQueue cap) msgs).queue :=
        (drainList_perm _).mem_iff.mp he
      rw [hq, List.mem_reverse] at he2
      rcases List.mem_map.mp he2 with ⟨p, _, rfl⟩
      rfl
    have ha1 := hform a ha
    have hb1 := hform b hb
    unfold entryLT at hab
    rw [ha1, hb1] at hab
    omega

/-- A message with only the fields relevant to queue ordering filled in;
used to instantiate the general theorems on concrete inputs. -/
def sampleMsg (id : Nat) (p : Int) : Message :=
  ⟨id, "a", "b", p, 0, none⟩

/-- Witness for C1 at the spec's own test vector: priorities
`[1, 4, 2, 4, 1]` drain as `[4, 4, 2, 1, 1]` preserving send order among
equals. -/
theorem priority_queue_drain_ordered_witness :
    ([sampleMsg 0 1, sampleMsg 1 4, sampleMsg 2 2,
        sampleMsg 3 4, sampleMsg 4 1] : List Message).length ≤ 5 ∧
    ((putAll (mkQueue 5) [sampleMsg 0 1, sampleMsg 1 4, sampleMsg 2 2,
        sampleMsg 3 4, sampleMsg 4 1]).drain =
      (drainList (putAll (mkQueue 5) [sampleMsg 0 1, sampleMsg 1 4, sampleMsg 2 2,
        sampleMsg 3 4, sampleMsg 4 1]).queue).map (fun e => e.2.2) ∧
    (drainList (putAll (mkQueue 5) [sampleMsg 0 1, sampleMsg 1 4, sampleMsg 2 2,
        sampleMsg 3 4, sampleMsg 4 1]).queue).Perm
        (([sampleMsg 0 1, sampleMsg 1 4, sampleMsg 2 2,
            sampleMsg 3 4, sampleMsg 4 1].enumFrom 0).map
          (fun p => (-(p.2.priority), p.1, p.2))) ∧
    (drainList (putAll (mkQueue 5) [sampleMsg 0 1, sampleMsg 1 4, sampleMsg 2 2,
        sampleMsg 3 4, sampleMsg 4 1]).queue).Pairwise
        (fun e1 e2 : Entry => e1.2.2.priority > e2.2.2.priority ∨
          (e1.2.2.priority = e2.2.2.priority ∧ e1.2.1 < e2.2.1))) ∧
    (putAll (mkQueue 5) [sampleMsg 0 1, sampleMsg 1 4, sampleMsg 2 2,
        sampleMsg 3 4, sampleMsg 4 1]).drain =
      [sampleMsg 1 4, sampleMsg 3 4, sampleMsg 2 2, sampleMsg 0 1, sampleMsg 4 1] :=
  ⟨by decide,
   priority_queue_drain_ordered 5 _ (by decide),
   by decide⟩

theorem drainList_filter (p : Entry → Bool) (l : List Entry)
    (h : (l.map (fun e => e.2.1)).Nodup) :
    drainList (l.filter p) = (drainList l).filter p := by
  have hndFilter : ((l.filter p).map (fun e => e.2.1)).Nodup :=
    h.sublist ((List.filter_sublist l).map (fun e => e.2.1))
  have hperm : (drainList (l.filter p)).Perm ((drainList l).filter p) :=
    (drainList_perm _).trans ((drainList_perm l).filter p).symm
  have hs1 : (drainList (l.filter p)).Pairwise entryLT :=
    drainList_pairwise_strict _ hndFilter
  have hs2 : ((drainList l).filter p).Pairwise entryLT :=
    (drainList_pairwise_strict l h).sublist (List.filter_sublist _)
  exact List.eq_of_perm_of_sorted hperm hs1 hs2

/-- C3: `clear_expired` removes exactly the messages expired at call
time, returns the number removed, leaves the survivors in their relative
priority order (draining the swept queue yields the original drain
sequence minus the expired messages), and never removes a message whose
TTL is absent. -/
theorem clear_expired_exact (q : MessageQueue) (now : Int)
    (h : (q.queue.map (fun e => e.2.1)).Nodup) :
    (q.clear_expired now).1 = q.queue.countP (fun e => e.2.2.is_expired now) ∧
    (q.clear_expired now).2.queue =
      q.queue.filter (fun e => !(e.2.2.is_expired now)) ∧
    ((q.clear_expired now).2).drain =
      q.drain.filter (fun m => !(m.is_expired now)) ∧
    (∀ e ∈ q.queue, e.2.2.ttl = none → e ∈ (q.clear_expired now).2.queue) := by
  refine ⟨rfl, rfl, ?_, ?_⟩
  · show (MessageQueue.drain _) = _
    rw [MessageQueue.drain_eq, MessageQueue.drain_eq]
    show (drainList (q.queue.filter fun e => !(e.2.2.is_expired now))).map _ = _
    rw [drainList_filter _ _ h, List.filter_map]
    rfl
  · intro e he httl
    show e ∈ q.queue.filter (fun e => !(e.2.2.is_expired now))
    rw [List.mem_filter]
    refine ⟨he, ?_⟩
    simp [Message.is_expired, httl]

/-- Outcome of invoking a Python message-filter callable: it returns a
truthy value, returns a falsy value, or raises an exception. -/
inductive FilterOutcome where
  | pass
  | reject
  | fail
deriving DecidableEq, Repr

/-- A registered message filter. -/
abbrev MsgFilter := Message → FilterOutcome

/-- `CommunicationBus._apply_filters`: consult the filters in
registration order; a falsy return rejects the message immediately; an
exception is logged and the loop continues with the remaining filters. -/
def applyFilters (filters : List MsgFilter) (m : Message) : Bool :=
  match filters with
  | [] => true
  | f :: rest =>
    match f m with
    | .reject => false
    | .pass => applyFilters rest m
    | .fail => applyFilters rest m

/-- `deque(maxlen=10000)` append used for `message_history`: drop the
oldest entries beyond 10000. -/
def pushHistory (h : List Message) (m : Message) : List Message :=
  let h2 := h ++ [m]
  if h2.length > 10000 then h2.drop (h2.length - 10000) else h2

/-- The `CommunicationBus` state touched by the verified operations.
Subscriber callbacks live behind the delivery oracle passed to
`routeMessage`, so the registry keeps just the subscribed addresses (in
insertion order, as Python dict keys are); `failed_deliveries` is the
per-address backlog as an association list in insertion order. -/
structure BusState where
  queue : MessageQueue
  subscribers : List String
  history : List Message
  messages_sent : Nat
  messages_delivered : Nat
  messages_failed : Nat
  messages_expired : Nat
  failed_deliveries : List (String × List Message)
  filters : List MsgFilter

/-- `CommunicationBus.send_message`: reject (returning `false`, raising
nothing) when a filter rejects, the message is already expired, or the
queue is full; otherwise enqueue, bump `messages_sent` and append to the
history.  Websocket notification and logging have no modelled effect. -/
def sendMessage (s : BusState) (m : Message) (now : Int) : Bool × BusState :=
  if applyFilters s.filters m = false then (false, s)
  else if m.is_expired now then
    (false, { s with messages_expired := s.messages_expired + 1 })
  else
    let r := s.queue.put m
    if r.1 = false then (false, { s with queue := r.2 })
    else (true, { s with queue := r.2,
                         messages_sent := s.messages_sent + 1,
                         history := pushHistory s.history m })

/-- `CommunicationBus._get_group_members`: placeholder that always
returns no members. -/
def getGroupMembers (_ : String) : List String := []

/-- `CommunicationBus._determine_recipients`.  Python's
`recipient.startswith("group:")` and `recipient[6:]` are modelled on the
underlying character lists. -/
def determineRecipients (s : BusState) (m : Message) : List String :=
  if m.recipient = "broadcast" then
    s.subscribers.filter (fun a => a != m.sender)
  else if "group:".data.isPrefixOf m.recipient.data then
    getGroupMembers (String.mk (m.recipient.data.drop 6))
  else if m.recipient ∈ s.subscribers then [m.recipient] else []

/-- `self.failed_deliveries[recipient].append(message)` on a
`defaultdict(list)`: append to the existing backlog, or create the
key with a one-element list. -/
def addBacklog (fd : List (String × List Message)) (r : String) (m : Message) :
    List (String × List Message) :=
  if fd.any (fun p => p.1 == r) then
    fd.map (fun p => if p.1 == r then (p.1, p.2 ++ [m]) else p)
  else fd ++ [(r, [m])]

/-- `CommunicationBus._route_message`, with the outcome of awaiting each
subscriber callback supplied by the oracle `dOk` (`true` = the callback
returned, `false` = it raised).  A failing delivery appends the message
to that recipient's backlog.  When no delivery task was created the
metrics block is skipped and the state is returned unchanged. -/
def routeMessage (dOk : String → Message → Bool) (s : BusState) (m : Message) :
    BusState :=
  let tasks := (determineRecipients s m).filter (fun r => r ∈ s.subscribers)
  let succ := tasks.countP (fun r => dOk r m)
  let fail := tasks.length - succ
  let fd := tasks.foldl
    (fun acc r => if dOk r m then acc else addBacklog acc r m) s.failed_deliveries
  if tasks.isEmpty then s
  else { s with messages_delivered := s.messages_delivered + succ,
                messages_failed := s.messages_failed + fail,
                failed_deliveries := fd }

/-- `CommunicationBus.unsubscribe`: remove the callback and that
address's failed-delivery backlog; a no-op for an unknown address. -/
def unsubscribe (s : BusState) (a : String) : BusState :=
  if a ∈ s.subscribers then
    { s with subscribers := s.subscribers.erase a,
             failed_deliveries := s.failed_deliveries.filter (fun p => p.1 != a) }
  else s

/-- `agent_id in self.failed_deliveries` / `self.failed_deliveries[a]`. -/
def lookupBacklog (fd : List (String × List Message)) (a : String) :
    Option (List Message) :=
  (fd.find? (fun p => p.1 == a)).map Prod.snd

/-- `self.failed_deliveries[a].clear()`: the key stays, its list empties. -/
def clearBacklog (fd : List (String × List Message)) (a : String) :
    List (String × List Message) :=
  fd.map (fun p => if p.1 == a then (p.1, []) else p)

/-- The inner loop of `retry_failed_deliveries`: re-submit each
non-expired backlog message through `send_message`, counting the
accepted ones; expired messages are silently skipped. -/
def resubmit (now : Int) : List Message → Nat → BusState → Nat × BusState
  | [], cnt, s => (cnt, s)
  | m :: rest, cnt, s =>
    if m.is_expired now then resubmit now rest cnt s
    else
      let r := sendMessage s m now
      resubmit now rest (if r.1 then cnt + 1 else cnt) r.2

/-- One iteration of the `for aid in agents_to_retry` loop: skip unknown
keys, otherwise snapshot the backlog, clear it, and resubmit. -/
def retryOne (now : Int) (acc : Nat × BusState) (aid : String) : Nat × BusState :=
  match lookupBacklog acc.2.failed_deliveries aid with
  | none => acc
  | some msgs =>
    resubmit now msgs acc.1
      { acc.2 with failed_deliveries := clearBacklog acc.2.failed_deliveries aid }

/-- `CommunicationBus.retry_failed_deliveries`. -/
def retryFailedDeliveries (s : BusState) (agentId : Option String) (now : Int) :
    Nat × BusState :=
  let agents := match agentId with
    | some a => [a]
    | none => s.failed_deliveries.map Prod.fst
  agents.foldl (retryOne now) (0, s)

/-- The fields of the `get_statistics` snapshot that the claims refer
to (string-valued timestamp fields are omitted). -/
structure Stats where
  messages_sent : Nat
  messages_delivered : Nat
  messages_failed : Nat
  messages_expired : Nat
  queue_size : Nat
  queue_capacity : Nat
  history_size : Nat
  active_subscribers : Nat
  failed_delivery_queues : Nat
  success_rate : ℚ
deriving Repr, DecidableEq

/-- `CommunicationBus.get_statistics`: a snapshot assembled from the
current counters; the method only reads, so the state-passing embedding
returns the state unchanged. -/
def getStatistics (s : BusState) : Stats × BusState :=
  ({ messages_sent := s.messages_sent,
     messages_delivered := s.messages_delivered,
     messages_failed := s.messages_failed,
     messages_expired := s.messages_expired,
     queue_size := s.queue.size,
     queue_capacity := s.queue.max_size,
     history_size := s.history.length,
     active_subscribers := s.subscribers.length,
     failed_delivery_queues := s.failed_deliveries.length,
     success_rate := (s.messages_delivered : ℚ) / ((max 1 s.messages_sent : Nat) : ℚ) * 100 },
   s)

theorem sendMessage_of_filters_false {s : BusState} {m : Message} (now : Int)
    (hf : applyFilters s.filters m = false) : sendMessage s m now = (false, s) := by
  simp [sendMessage, hf]

theorem sendMessage_success {s : BusState} {m : Message} {now : Int}
    (hf : applyFilters s.filters m = true) (he : m.is_expired now = false)
    (hq : s.queue.size < s.queue.max_size) :
    sendMessage s m now =
      (true, { s with
        queue := { s.queue with
          queue := (-m.priority, s.queue.counter, m) :: s.queue.queue,
          counter := s.queue.counter + 1,
          size := s.queue.size + 1 },
        messages_sent := s.messages_sent + 1,
        history := pushHistory s.history m }) := by
  have hq' : ¬ s.queue.size ≥ s.queue.max_size := by omega
  simp [sendMessage, MessageQueue.put, hf, he, hq']

/-- C2: `send` returns `false` exactly when a registered filter rejects
the message, the message is already expired, or the queue is at
capacity (no exception reaches the caller: the modelled function is
total); the queue capacity is never exceeded. -/
theorem send_message_reject_iff (s : BusState) (m : Message) (now : Int) :
    ((sendMessage s m now).1 = false ↔
      (applyFilters s.filters m = false ∨ m.is_expired now = true ∨
        s.queue.max_size ≤ s.queue.size)) ∧
    ((sendMessage s m now).2.queue.max_size = s.queue.max_size) ∧
    (s.queue.size ≤ s.queue.max_size →
      (sendMessage s m now).2.queue.size ≤ s.queue.max_size) := by
  by_cases hf : applyFilters s.filters m = false <;>
    by_cases he : m.is_expired now <;>
      by_cases hq : s.queue.size ≥ s.queue.max_size <;>
        simp [sendMessage, MessageQueue.put, hf, he, hq] <;> omega

/-- A fresh bus with the given queue capacity, filters and subscribers:
`CommunicationBus.__init__` with every counter at zero. -/
def mkBus (cap : Nat) (subs : List String) (filters : List MsgFilter) : BusState :=
  { queue := mkQueue cap, subscribers := subs, history := [],
    messages_sent := 0, messages_delivered := 0, messages_failed := 0,
    messages_expired := 0, failed_deliveries := [], filters := filters }

/-- The spec's capacity test: capacity 2, a third `send` fails. -/
def busCap2 : BusState := mkBus 2 [] []

def busCap2a : BusState := (sendMessage busCap2 (sampleMsg 0 1) 0).2

def busCap2b : BusState := (sendMessage busCap2a (sampleMsg 1 1) 0).2

/-- Witness for C2: with capacity 2, two sends succeed, the third
returns `false` and the size stays within capacity. -/
theorem send_message_reject_iff_witness :
    (sendMessage busCap2 (sampleMsg 0 1) 0).1 = true ∧
    (sendMessage busCap2a (sampleMsg 1 1) 0).1 = true ∧
    (sendMessage busCap2b (sampleMsg 2 1) 0).1 = false ∧
    busCap2b.queue.size ≤ busCap2b.queue.max_size ∧
    (sendMessage busCap2b (sampleMsg 2 1) 0).2.queue.size ≤ busCap2b.queue.max_size := by
  refine ⟨by decide, by decide, ?_, by decide, ?_⟩
  · exact (send_message_reject_iff busCap2b (sampleMsg 2 1) 0).1.mpr
      (Or.inr (Or.inr (by decide)))
  · exact (send_message_reject_iff busCap2b (sampleMsg 2 1) 0).2.2 (by decide)

/-- C10: a filter that raises is absorbed: the loop continues with the
remaining filters and only an explicit falsy return rejects, so a
message is queued whenever no filter explicitly returns false (and the
message is fresh and the queue has room). -/
theorem filter_exception_ignored (filters : List MsgFilter) (f : MsgFilter)
    (s : BusState) (m : Message) (now : Int) :
    (applyFilters filters m = true ↔ ∀ g ∈ filters, g m ≠ FilterOutcome.reject) ∧
    (f m = FilterOutcome.fail →
      applyFilters (f :: filters) m = applyFilters filters m) ∧
    ((∀ g ∈ s.filters, g m ≠ FilterOutcome.reject) → m.is_expired now = false →
      s.queue.size < s.queue.max_size →
      (sendMessage s m now).1 = true ∧
      (sendMessage s m now).2.queue.queue =
        (-m.priority, s.queue.counter, m) :: s.queue.queue) := by
  have key : ∀ fs : List MsgFilter,
      applyFilters fs m = true ↔ ∀ g ∈ fs, g m ≠ FilterOutcome.reject := by
    intro fs
    induction fs with
    | nil => simp [applyFilters]
    | cons f rest ih =>
      cases hfm : f m with
      | reject => simp [applyFilters, hfm]
      | pass => simp [applyFilters, hfm, ih]
      | fail => simp [applyFilters, hfm, ih]
  refine ⟨key filters, ?_, ?_⟩
  · intro hfm; simp [applyFilters, hfm]
  · intro hall he hq
    have hf : applyFilters s.filters m = true := (key s.filters).mpr hall
    rw [sendMessage_success hf he hq]
    exact ⟨rfl, rfl⟩

def raisingFilter : MsgFilter := fun _ => FilterOutcome.fail

def passingFilter : MsgFilter := fun _ => FilterOutcome.pass

def busFilters : BusState := mkBus 4 [] [raisingFilter, passingFilter]

/-- Witness for C10: with a raising filter followed by a passing one,
the message passes the filter stage and is queued. -/
theorem filter_exception_ignored_witness :
    applyFilters busFilters.filters (sampleMsg 0 1) = true ∧
    (sendMessage busFilters (sampleMsg 0 1) 0).1 = true := by
  have h := filter_exception_ignored busFilters.filters raisingFilter
    busFilters (sampleMsg 0 1) 0
  have hall : ∀ g ∈ busFilters.filters, g (sampleMsg 0 1) ≠ FilterOutcome.reject := by
    intro g hg
    rcases List.mem_cons.mp hg with rfl | hg2
    · decide
    rcases List.mem_cons.mp hg2 with rfl | hg3
    · decide
    · simp at hg3
  exact ⟨h.1.mpr hall, (h.2.2 hall (by decide) (by decide)).1⟩

/-- C9: `get_statistics` is a pure projection: it returns the state
unchanged, reports `success_rate = delivered / max(1, sent) * 100`
recomputed from the current counters, and reading twice yields the same
snapshot.  At the spec's test point (10 sent, 7 delivered) the rate is
exactly 70. -/
theorem get_statistics_success_rate (s : BusState) :
    (getStatistics s).2 = s ∧
    (getStatistics s).1.success_rate =
      (s.messages_delivered : ℚ) / ((max 1 s.messages_sent : Nat) : ℚ) * 100 ∧
    (getStatistics ((getStatistics s).2)).1 = (getStatistics s).1 ∧
    (s.messages_sent = 10 → s.messages_delivered = 7 →
      (getStatistics s).1.success_rate = 70) := by
  refine ⟨rfl, rfl, rfl, ?_⟩
  intro h1 h2
  simp [getStatistics, h1, h2]
  norm_num

def busC9 : BusState :=
  { mkBus 4 [] [] with messages_sent := 10, messages_delivered := 7,
                       messages_failed := 3 }

/-- Witness for C9 at the spec's test point. -/
theorem get_statistics_success_rate_witness :
    busC9.messages_sent = 10 ∧ busC9.messages_delivered = 7 ∧
    (getStatistics busC9).1.success_rate = 70 ∧
    (getStatistics busC9).2 = busC9 :=
  ⟨rfl, rfl, (get_statistics_success_rate busC9).2.2.2 rfl rfl,
   (get_statistics_success_rate busC9).1⟩

/-- C6: a broadcast resolves to exactly the subscribed addresses other
than the sender; the sender never receives its own broadcast. -/
theorem broadcast_excludes_sender (s : BusState) (m : Message)
    (h : m.recipient = "broadcast") :
    m.sender ∉ determineRecipients s m ∧
    ∀ a : String, a ∈ determineRecipients s m ↔ (a ∈ s.subscribers ∧ a ≠ m.sender) := by
  have hd : determineRecipients s m = s.subscribers.filter (fun a => a != m.sender) := by
    simp [determineRecipients, h]
  constructor
  · rw [hd]
    simp [List.mem_filter]
  · intro a
    rw [hd]
    simp [List.mem_filter]

def busC6 : BusState := mkBus 4 ["A", "B", "C"] []

def msgC6 : Message := ⟨9, "A", "broadcast", 1, 0, none⟩

/-- Witness for C6: subscribers A, B, C; A broadcasts; recipients are
exactly B and C. -/
theorem broadcast_excludes_sender_witness :
    msgC6.recipient = "broadcast" ∧
    msgC6.sender ∉ determineRecipients busC6 msgC6 ∧
    determineRecipients busC6 msgC6 = ["B", "C"] :=
  ⟨rfl, (broadcast_excludes_sender busC6 msgC6 rfl).1, by decide⟩

def busC5 : BusState := mkBus 4 ["a"] []

def msgC5 : Message := ⟨7, "a", "b", 1, 0, none⟩

/-- C5 counterexample: recipient "b" is not subscribed and is neither
"broadcast" nor a "group:" token, so zero recipients are resolved — but
routing the message leaves `messages_failed` at 0 instead of
incrementing it: with no delivery task, `_route_message` skips the
metrics block entirely. -/
theorem unroutable_not_counted_counterexample :
    determineRecipients busC5 msgC5 = [] ∧
    busC5.messages_failed = 0 ∧
    (routeMessage (fun _ _ => false) busC5 msgC5).messages_failed = 0 ∧
    (routeMessage (fun _ _ => false) busC5 msgC5).messages_delivered = 0 := by
  refine ⟨by decide, rfl, by decide, by decide⟩

/-- C5 (amended): when the recipient is not subscribed and is neither
"broadcast" nor a "group:" token, zero recipients are resolved and the
message is dropped silently: routing it changes nothing — no counter
(`messages_failed` included) moves and no backlog entry is created. -/
theorem unroutable_dropped_silently (dOk : String → Message → Bool)
    (s : BusState) (m : Message)
    (h1 : m.recipient ∉ s.subscribers) (h2 : m.recipient ≠ "broadcast")
    (h3 : ("group:".data.isPrefixOf m.recipient.data) = false) :
    determineRecipients s m = [] ∧ routeMessage dOk s m = s := by
  have hd : determineRecipients s m = [] := by
    simp [determineRecipients, h2, h3, h1]
  refine ⟨hd, ?_⟩
  simp [routeMessage, hd]

/-- Witness for C5 (amended) at the counterexample's input. -/
theorem unroutable_dropped_silently_witness :
    msgC5.recipient ∉ busC5.subscribers ∧
    msgC5.recipient ≠ "broadcast" ∧
    ("group:".data.isPrefixOf msgC5.recipient.data) = false ∧
    determineRecipients busC5 msgC5 = [] ∧
    routeMessage (fun _ _ => true) busC5 msgC5 = busC5 := by
  have h := unroutable_dropped_silently (fun _ _ => true) busC5 msgC5
    (by decide) (by decide) (by decide)
  exact ⟨by decide, by decide, by decide, h.1, h.2⟩

theorem lookupBacklog_filter_self (fd : List (String × List Message)) (a : String) :
    lookupBacklog (fd.filter (fun p => p.1 != a)) a = none := by
  unfold lookupBacklog
  rw [List.find?_eq_none.mpr]
  · rfl
  · intro p hp
    have := (List.mem_filter.mp hp).2
    simpa using this

theorem retry_single_of_none {s : BusState} {a : String} (now : Int)
    (h : lookupBacklog s.failed_deliveries a = none) :
    retryFailedDeliveries s (some a) now = (0, s) := by
  simp [retryFailedDeliveries, retryOne, h]

/-- C8: unsubscribing a subscribed address removes it from the registry
and purges its failed-delivery backlog, so a subsequent
`retry_failed_deliveries` for that address retries nothing; for an
unknown address `unsubscribe` is a no-op. -/
theorem unsubscribe_spec (s : BusState) (a : String) (now : Int)
    (hnd : s.subscribers.Nodup) :
    (a ∈ s.subscribers →
      a ∉ (unsubscribe s a).subscribers ∧
      lookupBacklog (unsubscribe s a).failed_deliveries a = none ∧
      retryFailedDeliveries (unsubscribe s a) (some a) now = (0, unsubscribe s a)) ∧
    (a ∉ s.subscribers → unsubscribe s a = s) := by
  constructor
  · intro hmem
    have hu : unsubscribe s a = { s with
        subscribers := s.subscribers.erase a,
        failed_deliveries := s.failed_deliveries.filter (fun p => p.1 != a) } := by
      simp [unsubscribe, hmem]
    have h2 : lookupBacklog (unsubscribe s a).failed_deliveries a = none := by
      rw [hu]
      exact lookupBacklog_filter_self _ _
    refine ⟨?_, h2, retry_single_of_none now h2⟩
    rw [hu]
    intro hcon
    exact ((hnd.mem_erase_iff).mp hcon).1 rfl
  · intro hmem
    simp [unsubscribe, hmem]

def busC8 : BusState :=
  { mkBus 4 ["X", "Y"] [] with failed_deliveries := [("X", [sampleMsg 0 1])] }

/-- Witness for C8: one failed delivery for X; unsubscribing X empties
its backlog and a retry for X retries nothing. -/
theorem unsubscribe_spec_witness :
    ("X" : String) ∈ busC8.subscribers ∧
    ("X" : String) ∉ (unsubscribe busC8 "X").subscribers ∧
    lookupBacklog (unsubscribe busC8 "X").failed_deliveries "X" = none ∧
    retryFailedDeliveries (unsubscribe busC8 "X") (some "X") 0 =
      (0, unsubscribe busC8 "X") := by
  have h := (unsubscribe_spec busC8 "X" 0 (by decide)).1 (by decide)
  exact ⟨by decide, h.1, h.2.1, h.2.2⟩

def ttlMsg (id : Nat) (p ts t : Int) : Message := ⟨id, "a", "b", p, ts, some t⟩

def qC3 : MessageQueue := putAll (mkQueue 10) [ttlMsg 0 1 0 1, sampleMsg 1 2]

/-- Witness for C3: a message with ttl 1 sent at time 0 and a
non-expiring message; sweeping at time 100 removes exactly the expired
one (count 1) and the survivor drains unchanged. -/
theorem clear_expired_exact_witness :
    (qC3.queue.map (fun e => e.2.1)).Nodup ∧
    (qC3.clear_expired 100).1 = 1 ∧
    ((qC3.clear_expired 100).2).drain = [sampleMsg 1 2] := by
  have h := clear_expired_exact qC3 100 (by decide)
  refine ⟨by decide, ?_, ?_⟩
  · rw [h.1]; decide
  · rw [h.2.2.1]; decide

def msgTTL0 : Message := ⟨0, "a", "b", 1, 0, some 0⟩

def mNegC4 : Message := ⟨1, "a", "b", 1, 0, some (-5)⟩

def qTTL0 : MessageQueue := ((mkQueue 10).put msgTTL0).2

/-- C4 counterexample: a message with ttl = 0 is accepted on insert but
is NOT considered expired afterwards — Python's `if not self.ttl` treats
a zero TTL like an absent one — so the expiry sweep at a much later time
removes nothing, contradicting the claim that a zero-TTL message expires
immediately. -/
theorem ttl_zero_not_swept_counterexample :
    ((mkQueue 10).put msgTTL0).1 = true ∧
    msgTTL0.ttl = some 0 ∧
    (100 : Int) > msgTTL0.timestamp ∧
    msgTTL0.is_expired 100 = false ∧
    (qTTL0.clear_expired 100).1 = 0 ∧
    (qTTL0.clear_expired 100).2.queue = qTTL0.queue := by
  decide

/-- C4 (amended): a message with zero or negative TTL is accepted on
insert whenever capacity allows; a NEGATIVE-TTL message is considered
expired at any time from its creation on and is removed by the next
sweep, while a ZERO-TTL message is treated like one with no TTL and
never expires. -/
theorem ttl_nonpositive_amended (m : Message) (t : Int) (now : Int) (q : MessageQueue)
    (hm : m.ttl = some t) :
    (q.size < q.max_size → (q.put m).1 = true) ∧
    (t < 0 → m.timestamp ≤ now → m.is_expired now = true) ∧
    (t = 0 → m.is_expired now = false) ∧
    (t < 0 → m.timestamp ≤ now →
      ∀ e ∈ (q.clear_expired now).2.queue, e.2.2 ≠ m) := by
  have hexp : t < 0 → m.timestamp ≤ now → m.is_expired now = true := by
    intro ht hts
    have hne : t ≠ 0 := by omega
    simp only [Message.is_expired, hm, hne, if_false, decide_eq_true_eq]
    omega
  refine ⟨?_, hexp, ?_, ?_⟩
  · intro h
    have h' : ¬ q.size ≥ q.max_size := by omega
    simp [MessageQueue.put, h']
  · intro ht
    simp [Message.is_expired, hm, ht]
  · intro ht hts e he hem
    have hpred := (List.mem_filter.mp he).2
    rw [hem, hexp ht hts] at hpred
    simp at hpred

/-- Witness for C4 (amended): ttl = −5 expires immediately (time 10),
ttl = 0 does not; both are accepted by `put`. -/
theorem ttl_nonpositive_amended_witness :
    mNegC4.ttl = some (-5) ∧ msgTTL0.ttl = some 0 ∧
    (mkQueue 3).size < (mkQueue 3).max_size ∧
    ((mkQueue 3).put mNegC4).1 = true ∧
    mNegC4.is_expired 10 = true ∧
    msgTTL0.is_expired 10 = false := by
  have h1 := ttl_nonpositive_amended mNegC4 (-5) 10 (mkQueue 3) rfl
  have h2 := ttl_nonpositive_amended msgTTL0 0 10 (mkQueue 3) rfl
  exact ⟨rfl, rfl, by decide, h1.1 (by decide), h1.2.1 (by decide) (by decide),
    h2.2.2.1 rfl⟩

theorem sendMessage_preserves (s : BusState) (m : Message) (now : Int) :
    (sendMessage s m now).2.failed_deliveries = s.failed_deliveries ∧
    (sendMessage s m now).2.filters = s.filters ∧
    (sendMessage s m now).2.subscribers = s.subscribers := by
  by_cases hf : applyFilters s.filters m = false <;>
    by_cases he : m.is_expired now <;>
      by_cases hq : s.queue.size ≥ s.queue.max_size <;>
        simp [sendMessage, MessageQueue.put, hf, he, hq]

theorem resubmit_fd (now : Int) : ∀ (msgs : List Message) (cnt : Nat) (s : BusState),
    (resubmit now msgs cnt s).2.failed_deliveries = s.failed_deliveries := by
  intro msgs
  induction msgs with
  | nil => intro cnt s; rfl
  | cons m rest ih =>
    intro cnt s
    by_cases hm : m.is_expired now
    · simp [resubmit, hm, ih]
    · simp only [resubmit, hm, if_false, Bool.false_eq_true]
      rw [ih]
      exact (sendMessage_preserves s m now).1

theorem resubmit_spec (now : Int) : ∀ (msgs : List Message) (cnt : Nat) (s : BusState),
    (∀ m ∈ msgs, applyFilters s.filters m = true) →
    s.queue.size + msgs.countP (fun m => !(m.is_expired now)) ≤ s.queue.max_size →
    (resubmit now msgs cnt s).1 = cnt + msgs.countP (fun m => !(m.is_expired now)) ∧
    (resubmit now msgs cnt s).2.filters = s.filters ∧
    (resubmit now msgs cnt s).2.queue.size =
      s.queue.size + msgs.countP (fun m => !(m.is_expired now)) ∧
    (resubmit now msgs cnt s).2.queue.max_size = s.queue.max_size ∧
    ((resubmit now msgs cnt s).2.queue.queue.map (fun e => e.2.2)).Perm
      ((msgs.filter (fun m => !(m.is_expired now))) ++
        s.queue.queue.map (fun e => e.2.2)) := by
  intro msgs
  induction msgs with
  | nil =>
    intro cnt s _ _
    simp [resubmit]
  | cons m rest ih =>
    intro cnt s hfilters hcap
    by_cases hm : m.is_expired now
    · have hcnt : (m :: rest).countP (fun m => !(m.is_expired now)) =
          rest.countP (fun m => !(m.is_expired now)) := by
        simp [List.countP_cons, hm]
      have hfil : (m :: rest).filter (fun m => !(m.is_expired now)) =
          rest.filter (fun m => !(m.is_expired now)) := by
        simp [List.filter_cons, hm]
      have hstep : resubmit now (m :: rest) cnt s = resubmit now rest cnt s := by
        simp [resubmit, hm]
      rw [hstep, hcnt, hfil]
      exact ih cnt s (fun x hx => hfilters x (List.mem_cons_of_mem m hx))
        (by rw [hcnt] at hcap; exact hcap)
    · have hm' : m.is_expired now = false := by simpa using hm
      have hcnt : (m :: rest).countP (fun m => !(m.is_expired now)) =
          rest.countP (fun m => !(m.is_expired now)) + 1 := by
        simp [List.countP_cons, hm']
      have hfil : (m :: rest).filter (fun m => !(m.is_expired now)) =
          m :: rest.filter (fun m => !(m.is_expired now)) := by
        simp [List.filter_cons, hm']
      have hf1 : applyFilters s.filters m = true := hfilters m (List.mem_cons_self m rest)
      have hq1 : s.queue.size < s.queue.max_size := by
        rw [hcnt] at hcap; omega
      have hsend := sendMessage_success hf1 hm' hq1
      have hstep : resubmit now (m :: rest) cnt s =
          resubmit now rest (cnt + 1) (sendMessage s m now).2 := by
        simp [resubmit, hm', hsend]
      set s' : BusState := { s with
        queue := { s.queue with
          queue := (-m.priority, s.queue.counter, m) :: s.queue.queue,
          counter := s.queue.counter + 1,
          size := s.queue.size + 1 },
        messages_sent := s.messages_sent + 1,
        history := pushHistory s.history m } with hs'
      have hsend2 : (sendMessage s m now).2 = s' := by rw [hsend]
      rw [hstep, hsend2]
      have ihres := ih (cnt + 1) s'
        (fun x hx => hfilters x (List.mem_cons_of_mem m hx))
        (by
          show s'.queue.size + _ ≤ s'.queue.max_size
          have hsz : s'.queue.size = s.queue.size + 1 := rfl
          have hmax : s'.queue.max_size = s.queue.max_size := rfl
          rw [hsz, hmax]
          rw [hcnt] at hcap
          omega)
      obtain ⟨ih1, ih2, ih3, ih4, ih5⟩ := ihres
      refine ⟨by rw [ih1, hcnt]; omega, ih2, ?_, ih4, ?_⟩
      · rw [ih3, hcnt]
        show s.queue.size + 1 + _ = _
        omega
      · rw [hfil]
        have hq' : s'.queue.queue.map (fun e => e.2.2) =
            m :: s.queue.queue.map (fun e => e.2.2) := rfl
        rw [hq'] at ih5
        refine ih5.trans ?_
        exact List.perm_middle

theorem lookupBacklog_clearBacklog_self (fd : List (String × List Message))
    (a : String) :
    lookupBacklog (clearBacklog fd a) a =
      (lookupBacklog fd a).map (fun _ => ([] : List Message)) := by
  induction fd with
  | nil => rfl
  | cons p rest ih =>
    by_cases hp : (p.1 == a) = true
    · have h1 : lookupBacklog (clearBacklog (p :: rest) a) a = some [] := by
        unfold clearBacklog lookupBacklog
        rw [List.map_cons, List.find?_cons_of_pos]
        · simp [hp]
        · simp [hp]
      have h2 : lookupBacklog (p :: rest) a = some p.2 := by
        simp [lookupBacklog, List.find?_cons, hp]
      rw [h1, h2]
      rfl
    · have hpf : (p.1 == a) = false := by simpa using hp
      have h1 : lookupBacklog (clearBacklog (p :: rest) a) a =
          lookupBacklog (clearBacklog rest a) a := by
        unfold clearBacklog lookupBacklog
        rw [List.map_cons, List.find?_cons_of_neg]
        simp [hpf]
      have h2 : lookupBacklog (p :: rest) a = lookupBacklog rest a := by
        simp [lookupBacklog, List.find?_cons, hpf]
      rw [h1, h2, ih]

theorem clearBacklog_idem (fd : List (String × List Message)) (a : String) :
    clearBacklog (clearBacklog fd a) a = clearBacklog fd a := by
  unfold clearBacklog
  rw [List.map_map]
  apply List.map_congr_left
  intro p _
  by_cases hp : (p.1 == a) = true
  · have hpa : p.1 = a := by simpa using hp
    simp [hpa]
  · have hne : ¬ p.1 = a := by simpa using hp
    simp [hne]

theorem busState_set_fd_self (s : BusState) :
    { s with failed_deliveries := s.failed_deliveries } = s := rfl

theorem foldl_retryOne_fd (now : Int) : ∀ (agents : List String) (acc : Nat × BusState),
    (agents.foldl (retryOne now) acc).2.failed_deliveries =
      acc.2.failed_deliveries.map
        (fun p => if p.1 ∈ agents then (p.1, ([] : List Message)) else p) := by
  intro agents
  induction agents with
  | nil =>
    intro acc
    simp
  | cons a rest ih =>
    intro acc
    rw [List.foldl_cons, ih]
    rcases hl : lookupBacklog acc.2.failed_deliveries a with _ | msgs
    · have hstep : retryOne now acc a = acc := by
        simp [retryOne, hl]
      rw [hstep]
      apply List.map_congr_left
      intro p hp
      have hkey : ¬ (p.1 == a) = true := by
        unfold lookupBacklog at hl
        rcases hfind : acc.2.failed_deliveries.find? (fun q => q.1 == a) with _ | v
        · exact List.find?_eq_none.mp hfind p hp
        · rw [hfind] at hl; simp at hl
      have hne : p.1 ≠ a := by simpa using hkey
      simp [List.mem_cons, hne]
    · have hstep : (retryOne now acc a).2.failed_deliveries =
          clearBacklog acc.2.failed_deliveries a := by
        simp only [retryOne, hl]
        exact resubmit_fd now msgs acc.1 _
      rw [hstep]
      unfold clearBacklog
      rw [List.map_map]
      apply List.map_congr_left
      intro p _
      by_cases hp : (p.1 == a) = true
      · have hpa : p.1 = a := by simpa using hp
        simp [hp, hpa, List.mem_cons]
      · have hne : p.1 ≠ a := by simpa using hp
        by_cases hr : p.1 ∈ rest <;> simp [hp, hne, List.mem_cons, hr]

theorem retry_single_of_some {s : BusState} {a : String} {msgs : List Message}
    (now : Int) (h : lookupBacklog s.failed_deliveries a = some msgs) :
    retryFailedDeliveries s (some a) now =
      resubmit now msgs 0
        { s with failed_deliveries := clearBacklog s.failed_deliveries a } := by
  simp [retryFailedDeliveries, retryOne, h]

/-- C7: `retry_failed_deliveries(a)` clears a's backlog before
resubmitting (the key survives with an empty list), re-submits each
non-expired backlog message through `send` — so exactly those messages
re-enter the queue — silently drops expired ones without counting them,
and returns the number retried; a second call retries nothing and
changes nothing, so backlog entries are never duplicated; with the
address omitted, every backlog is cleared. -/
theorem retry_failed_deliveries_spec (s : BusState) (a : String)
    (msgs : List Message) (now : Int)
    (hb : lookupBacklog s.failed_deliveries a = some msgs)
    (hf : ∀ m ∈ msgs, applyFilters s.filters m = true)
    (hcap : s.queue.size + msgs.countP (fun m => !(m.is_expired now)) ≤
      s.queue.max_size) :
    (retryFailedDeliveries s (some a) now).1 =
      msgs.countP (fun m => !(m.is_expired now)) ∧
    lookupBacklog (retryFailedDeliveries s (some a) now).2.failed_deliveries a =
      some [] ∧
    (((retryFailedDeliveries s (some a) now).2.queue.queue.map
        (fun e => e.2.2)).Perm
      ((msgs.filter (fun m => !(m.is_expired now))) ++
        s.queue.queue.map (fun e => e.2.2))) ∧
    retryFailedDeliveries (retryFailedDeliveries s (some a) now).2 (some a) now =
      (0, (retryFailedDeliveries s (some a) now).2) ∧
    (∀ p ∈ (retryFailedDeliveries s none now).2.failed_deliveries, p.2 = []) := by
  have hone : retryFailedDeliveries s (some a) now =
      resubmit now msgs 0
        { s with failed_deliveries := clearBacklog s.failed_deliveries a } :=
    retry_single_of_some now hb
  obtain ⟨r1, _, _, _, r5⟩ := resubmit_spec now msgs 0
    { s with failed_deliveries := clearBacklog s.failed_deliveries a } hf hcap
  have hfd2 : (retryFailedDeliveries s (some a) now).2.failed_deliveries =
      clearBacklog s.failed_deliveries a := by
    rw [hone]
    exact resubmit_fd now msgs 0 _
  have hlook : lookupBacklog
      (retryFailedDeliveries s (some a) now).2.failed_deliveries a = some [] := by
    rw [hfd2, lookupBacklog_clearBacklog_self, hb]
    rfl
  refine ⟨by rw [hone, r1]; omega, hlook, by rw [hone]; exact r5, ?_, ?_⟩
  · have hstep2 : retryFailedDeliveries
        (retryFailedDeliveries s (some a) now).2 (some a) now =
        resubmit now [] 0
          { (retryFailedDeliveries s (some a) now).2 with
            failed_deliveries := clearBacklog
              (retryFailedDeliveries s (some a) now).2.failed_deliveries a } :=
      retry_single_of_some now hlook
    rw [hstep2]
    have hcl : clearBacklog
        (retryFailedDeliveries s (some a) now).2.failed_deliveries a =
        (retryFailedDeliveries s (some a) now).2.failed_deliveries := by
      rw [hfd2, clearBacklog_idem]
    exact congrArg (Prod.mk 0) (by rw [hcl])
  · intro p hp
    have hall : (retryFailedDeliveries s none now).2.failed_deliveries =
        s.failed_deliveries.map
          (fun p => if p.1 ∈ s.failed_deliveries.map Prod.fst then
            (p.1, ([] : List Message)) else p) := by
      exact foldl_retryOne_fd now (s.failed_deliveries.map Prod.fst) (0, s)
    rw [hall] at hp
    rcases List.mem_map.mp hp with ⟨q, hq, rfl⟩
    have : q.1 ∈ s.failed_deliveries.map Prod.fst :=
      List.mem_map_of_mem Prod.fst hq
    simp [this]

def msgsC7 : List Message := [sampleMsg 0 2, ttlMsg 1 1 0 1]

def busC7 : BusState :=
  { mkBus 10 ["X"] [] with failed_deliveries := [("X", msgsC7)] }

/-- Witness for C7: the backlog for X holds a non-expired and an expired
message; retrying at time 100 retries exactly one message and leaves X's
backlog present but empty. -/
theorem retry_failed_deliveries_spec_witness :
    lookupBacklog busC7.failed_deliveries "X" = some msgsC7 ∧
    (retryFailedDeliveries busC7 (some "X") 100).1 = 1 ∧
    lookupBacklog
      (retryFailedDeliveries busC7 (some "X") 100).2.failed_deliveries "X" =
      some [] := by
  have h := retry_failed_deliveries_spec busC7 "X" msgsC7 100 (by decide)
    (fun m _ => rfl) (by decide)
  refine ⟨by decide, ?_, h.2.1⟩
  rw [h.1]
  decide
